import Mathlib

/-!
Verification development for the CodeSculpt.js tracer pipeline.

The embedding below translates the relevant parts of the repository:
the Babel instrumentation plugin (babel-tracer.js), the sandbox wrapper
with its two clone helpers, the run selector (selectExecutionRun), the
frame reducer (filterLogs) of the backend, and the stack builder of the
frontend Visualizer component.  Machine values occurring in the traced
snippets are primitives (numbers, booleans, strings), modelled by an
explicit value type; JavaScript objects are insertion-ordered key maps,
modelled by association lists with JavaScript spread-merge semantics.
-/

/-- JavaScript primitive runtime values as they occur in the traced
snippets and in recorded event payloads. -/
inductive Val where
  | int (n : Int)
  | bool (b : Bool)
  | str (s : String)
  | undefV
  | nullV
deriving DecidableEq

/-- Insertion-ordered object write: assigning to an existing key keeps
its position, a new key is appended, exactly as JavaScript objects do. -/
def setKey : List (String × Val) → String → Val → List (String × Val)
  | [], k, v => [(k, v)]
  | (k', v') :: t, k, v =>
      if k' = k then (k, v) :: t else (k', v') :: setKey t k v

/-- Key lookup in an insertion-ordered object. -/
def lookupKey : List (String × Val) → String → Option Val
  | [], _ => none
  | (k', v') :: t, k => if k' = k then some v' else lookupKey t k

/-- JavaScript object spread merge: the semantics of the source
expressions of the shape left-spread-right, used by the reducer to
accumulate state. -/
def mergeAL (a b : List (String × Val)) : List (String × Val) :=
  b.foldl (fun acc p => setKey acc p.1 p.2) a

/-- JSON.stringify of a primitive value. -/
def serializeVal : Val → String
  | .int n => toString n
  | .bool b => if b then "true" else "false"
  | .str s => "\"" ++ s ++ "\""
  | .undefV => "undefined"
  | .nullV => "null"

/-- JSON.stringify of an object of primitives.  Keys holding undefined
are dropped, as JSON.stringify does. -/
def serializeState (l : List (String × Val)) : String :=
  "\x7b" ++
    String.intercalate ","
      ((l.filter (fun p => p.2 ≠ Val.undefV)).map
        (fun p => "\"" ++ p.1 ++ "\":" ++ serializeVal p.2)) ++
  "\x7d"

/-- JavaScript string coercion of a primitive, as used inside template
literals. -/
def jsToString : Val → String
  | .int n => toString n
  | .bool b => if b then "true" else "false"
  | .str s => s
  | .undefV => "undefined"
  | .nullV => "null"

/-- One raw event appended by the injected probe runtime.  The variants
follow the object literals built by makeLog in babel-tracer.js: each has
an action string, a line, and a kind-specific payload. -/
inductive RawLog where
  | call (ln : Int) (fn : String) (args : List (String × Val))
  | ret (ln : Int) (value : Val)
  | declare (ln : Int) (locals : List (String × Val))
  | assign (ln : Int) (locals : List (String × Val))
  | test (ln : Int) (expression : String) (result : Val)
  | loopK (ln : Int) (kind : String)
  | stdout (ln : Int) (output : Val)
  | classD (ln : Int) (name : String)
  | lineNote (ln : Int) (locals : List (String × Val))
deriving DecidableEq

/-- The action tag carried by a raw event, as read by the pipeline. -/
def RawLog.action : RawLog → String
  | .call .. => "call"
  | .ret .. => "return"
  | .declare .. => "declare"
  | .assign .. => "assign"
  | .test .. => "test"
  | .loopK .. => "loop"
  | .stdout .. => "stdout"
  | .classD .. => "class"
  | .lineNote .. => "line"

/-- The locals payload of a raw event, where present. -/
def RawLog.localsOf : RawLog → Option (List (String × Val))
  | .declare _ ls => some ls
  | .assign _ ls => some ls
  | .lineNote _ ls => some ls
  | _ => none

/-- The args payload of a call event. -/
def RawLog.argsOf : RawLog → List (String × Val)
  | .call _ _ args => args
  | _ => []

/-- The function name of a call event. -/
def RawLog.fnOf : RawLog → String
  | .call _ fn _ => fn
  | _ => ""

/-- The line of a raw event. -/
def RawLog.lineOf : RawLog → Int
  | .call ln .. => ln
  | .ret ln .. => ln
  | .declare ln _ => ln
  | .assign ln _ => ln
  | .test ln .. => ln
  | .loopK ln _ => ln
  | .stdout ln _ => ln
  | .classD ln _ => ln
  | .lineNote ln _ => ln

/-- The value of a return event, read when the reducer builds a frame. -/
def RawLog.retOf : RawLog → Option Val
  | .ret _ v => some v
  | _ => none

/-- The output of a stdout event, read when the reducer builds a frame. -/
def RawLog.outOf : RawLog → Option Val
  | .stdout _ v => some v
  | _ => none

/-- Collects the indices of all call events, mirroring the forEach loop
of selectExecutionRun in the backend; the first argument is the running
index. -/
def callIndicesAux : Nat → List RawLog → List Nat
  | _, [] => []
  | k, e :: t =>
      if e.action = "call" then k :: callIndicesAux (k + 1) t
      else callIndicesAux (k + 1) t

/-- The call indices of a raw event list. -/
def callIndices (l : List RawLog) : List Nat := callIndicesAux 0 l

/-- The run selector of the backend: with no call events the whole raw
list is the run, otherwise the run is the suffix from the last recorded
call index. -/
def selectExecutionRun (l : List RawLog) : List RawLog :=
  match (callIndices l).getLast? with
  | none => l
  | some i => l.drop i

/-- One externally visible frame of the reduced trace, or the single
fault frame built by the catch clause of the request handler (the source
object carrying an error message and empty locals). -/
inductive Frame where
  | step (action : String) (ln : Int) (locals : List (String × Val))
      (context : Option String) (returnValue : Option Val) (output : Option Val)
  | fault (msg : String)
deriving DecidableEq

/-- The action of a frame. -/
def Frame.actionOf : Frame → String
  | .step a .. => a
  | .fault _ => "error"

/-- The context of a frame. -/
def Frame.contextOf : Frame → Option String
  | .step _ _ _ c _ _ => c
  | .fault _ => none

/-- The locals of a frame. -/
def Frame.localsOf : Frame → List (String × Val)
  | .step _ _ ls _ _ _ => ls
  | .fault _ => []

/-- The fold state carried by filterLogs: the accumulated flat state,
the serialization recorded at the last pushed frame (null before the
first push), and the pending test context. -/
structure RState where
  cur : List (String × Val)
  lastPushed : Option String
  pending : Option String
deriving DecidableEq

/-- State absorption at the head of the reducer loop: call events merge
their args into the current state, events with a locals payload merge
those in. -/
def absorb (cur : List (String × Val)) (lg : RawLog) : List (String × Val) :=
  let c1 := if lg.action = "call" then mergeAL cur lg.argsOf else cur
  match lg.localsOf with
  | some ls => mergeAL c1 ls
  | none => c1

/-- Whether an event kind always forces a frame. -/
def isSignificant (lg : RawLog) : Bool :=
  lg.action = "call" || lg.action = "return" || lg.action = "stdout"

/-- The context string built from a test event, following the template
literal of the source. -/
def testContextStr (expression : String) (result : Val) : String :=
  "Tested \"" ++ expression ++ "\": " ++ jsToString result

/-- One iteration of the filterLogs loop of the backend frame reducer,
translated clause by clause: absorb state, short-circuit test events
into the pending context, then emit a frame when the action is
significant or the serialized state differs from the last pushed one. -/
def reduceStep (st : RState) (lg : RawLog) : RState × Option Frame :=
  let cur := absorb st.cur lg
  if lg.action = "test" then
    ({ st with
        cur := cur,
        pending := some (testContextStr
          (match lg with | .test _ e _ => e | _ => "")
          (match lg with | .test _ _ r => r | _ => Val.undefV)) }, none)
  else if isSignificant lg = true ∨ st.lastPushed ≠ some (serializeState cur) then
    match st.pending with
    | some c =>
        ({ cur := cur, lastPushed := some (serializeState cur), pending := none },
         some (Frame.step (lg.action ++ " (after test)") lg.lineOf cur (some c)
            lg.retOf lg.outOf))
    | none =>
        ({ cur := cur, lastPushed := some (serializeState cur), pending := none },
         some (Frame.step lg.action lg.lineOf cur none lg.retOf lg.outOf))
  else
    ({ st with cur := cur }, none)

/-- The frame reducer of the backend: a left fold of reduceStep over the
selected run, collecting the emitted frames. -/
def filterLogs (run : List RawLog) : List Frame :=
  (run.foldl
    (fun acc lg =>
      let r := reduceStep acc.1 lg
      (r.1, acc.2 ++ r.2.toList))
    (({ cur := [], lastPushed := none, pending := none } : RState), [])).2

/-- Outcome of instrumenting and executing a snippet in the sandbox:
either the ordered raw event list, or a thrown error message together
with the raw events the sandbox had accumulated before the throw (these
die with the discarded sandbox). -/
inductive ExecOutcome where
  | ok (logs : List RawLog)
  | crashed (msg : String) (droppedLogs : List RawLog)

/-- The request handler of the backend endpoint: the try branch runs the
selector and reducer over the raw events, the catch branch answers with
the single fault frame, ignoring everything accumulated so far. -/
def handleRun : ExecOutcome → List Frame
  | .ok logs => filterLogs (selectExecutionRun logs)
  | .crashed msg _ => [Frame.fault msg]

/-- Expressions of the JavaScript fragment exercised by the claims.
The variant callIncr stands for a call of a user function of the shape
function incr() returning c = c + 1: the CallExpression visitor of the
tracer leaves such a call unchanged (only console.log calls are
rewritten), and the probes inserted inside the callee only append raw
events, so its effect on program state is an increment of the binding c
and its result is the new value of c. -/
inductive Expr where
  | num (n : Int)
  | boolLit (b : Bool)
  | evar (x : String)
  | add (a b : Expr)
  | lt (a b : Expr)
  | callIncr
deriving DecidableEq

/-- The source text the Babel generator prints for an expression, used
by the test probes: binary operators are printed with spaces. -/
def exprSrc : Expr → String
  | .num n => toString n
  | .boolLit b => if b then "true" else "false"
  | .evar x => x
  | .add a b => exprSrc a ++ " + " ++ exprSrc b
  | .lt a b => exprSrc a ++ " < " ++ exprSrc b
  | .callIncr => "incr()"

/-- Statements of the fragment, including the probe statements the
instrumentation inserts.  A probe statement evaluates its payload
expressions at the moment it executes and appends one raw event, exactly
as the generated calls of the injected logging function do. -/
inductive Stmt where
  | letDecl (ln : Int) (x : String) (e : Expr)
  | assignS (ln : Int) (x : String) (e : Expr)
  | incrS (ln : Int) (x : String)
  | forLoop (ln : Int) (x : String) (init : Expr) (tst : Expr)
      (upd : Option String) (body : List Stmt)
  | whileS (ln : Int) (c : Expr) (body : List Stmt)
  | probeDeclare (ln : Int) (x : String) (e : Expr)
  | probeAssign (ln : Int) (x : String) (e : Expr)
  | probeTest (ln : Int) (src : String) (e : Expr)
  | probeLoop (ln : Int) (kind : String)

/-- The execution environment: a flat insertion-ordered binding map.
The snippets settled here have no shadowing, so flat bindings agree with
JavaScript scoping on them. -/
abbrev Env := List (String × Val)

/-- JavaScript numeric addition on the values in play. -/
def jsAdd : Val → Val → Val
  | .int a, .int b => .int (a + b)
  | _, _ => .undefV

/-- JavaScript numeric comparison on the values in play. -/
def jsLt : Val → Val → Val
  | .int a, .int b => .bool (decide (a < b))
  | _, _ => .bool false

/-- JavaScript truthiness of a primitive. -/
def truthy : Val → Bool
  | .bool b => b
  | .int n => decide (n ≠ 0)
  | .str s => decide (s ≠ "")
  | .undefV => false
  | .nullV => false

/-- Expression evaluation; effectful because of callIncr, so it returns
the updated environment with the value. -/
def evalExpr : Expr → Env → Val × Env
  | .num n, env => (.int n, env)
  | .boolLit b, env => (.bool b, env)
  | .evar x, env => ((lookupKey env x).getD .undefV, env)
  | .add a b, env =>
      let ra := evalExpr a env
      let rb := evalExpr b ra.2
      (jsAdd ra.1 rb.1, rb.2)
  | .lt a b, env =>
      let ra := evalExpr a env
      let rb := evalExpr b ra.2
      (jsLt ra.1 rb.1, rb.2)
  | .callIncr, env =>
      let c := (lookupKey env "c").getD (.int 0)
      let c' := jsAdd c (.int 1)
      (c', setKey env "c" c')

/-- The clone helper applied by every probe to the value it records.
Both sandbox variants (the one-level spread copy and the JSON round
trip) are the identity on primitive values, the only values occurring in
the programs settled against this executor; the heap model further below
covers its behaviour on structured values. -/
def clonePrim (v : Val) : Val := v

/-- Step-indexed execution of a statement list: returns the final
environment and the ordered raw event list, or none when the fuel runs
out before the program finishes.  A for statement first runs its init,
then behaves as a while loop whose body is followed by the update
statement when one is present; after instrumentation the update slot is
always empty, the moved update statement already sits in the body. -/
def exec : Nat → List Stmt → Env → List RawLog → Option (Env × List RawLog)
  | 0, _, _, _ => none
  | _ + 1, [], env, logs => some (env, logs)
  | f + 1, s :: rest, env, logs =>
    match s with
    | .letDecl _ x e =>
        let r := evalExpr e env
        exec f rest (setKey r.2 x r.1) logs
    | .assignS _ x e =>
        let r := evalExpr e env
        exec f rest (setKey r.2 x r.1) logs
    | .incrS _ x =>
        let old := (lookupKey env x).getD (.int 0)
        exec f rest (setKey env x (jsAdd old (.int 1))) logs
    | .probeDeclare ln x e =>
        let r := evalExpr e env
        exec f rest r.2 (logs ++ [RawLog.declare ln [(x, clonePrim r.1)]])
    | .probeAssign ln x e =>
        let r := evalExpr e env
        exec f rest r.2 (logs ++ [RawLog.assign ln [(x, clonePrim r.1)]])
    | .probeTest ln src e =>
        let r := evalExpr e env
        exec f rest r.2 (logs ++ [RawLog.test ln src (clonePrim r.1)])
    | .probeLoop ln k =>
        exec f rest env (logs ++ [RawLog.loopK ln k])
    | .whileS ln c body =>
        let r := evalExpr c env
        if truthy r.1 then exec f (body ++ Stmt.whileS ln c body :: rest) r.2 logs
        else exec f rest r.2 logs
    | .forLoop ln x init tst upd body =>
        let r := evalExpr init env
        let env' := setKey r.2 x r.1
        let body' := match upd with
          | some u => body ++ [Stmt.incrS ln u]
          | none => body
        exec f (Stmt.whileS ln tst body' :: rest) env' logs

/-! The instrumentation pass on the fragment, mirroring the visitors of
babel-tracer.js together with the traversal order of Babel (a node is
visited on enter, then its children, including the statements a visitor
inserted into a body).  Per construct: a declaration gets a declare
probe inserted after it that re-evaluates a copy of the initializer; a
simple identifier assignment gets an assign probe after it that
re-evaluates a copy of the right hand side; an increment statement gets
an assign probe after it recording its argument; a classic for loop gets
its init logged by a declare probe inserted before the loop, a test
probe placed at the top of the body, and its update moved to the end of
the body where the update visitor then also fires, so the moved
increment is followed by its own assign probe and by the assign probe
the for visitor pushed; a while loop gets a loop probe at the top of its
body.  Probe statements themselves are not instrumented again. -/
mutual

/-- The rewrite of one statement by the instrumentation pass. -/
def instrumentS : Stmt → List Stmt
  | .letDecl ln x e => [Stmt.letDecl ln x e, Stmt.probeDeclare ln x e]
  | .assignS ln x e => [Stmt.assignS ln x e, Stmt.probeAssign ln x e]
  | .incrS ln x => [Stmt.incrS ln x, Stmt.probeAssign ln x (Expr.evar x)]
  | .whileS ln c body =>
      [Stmt.whileS ln c (Stmt.probeLoop ln "while" :: instrumentL body)]
  | .forLoop ln x init tst (some u) body =>
      [Stmt.probeDeclare ln x init,
       Stmt.forLoop ln x init tst none
         (Stmt.probeTest ln (exprSrc tst) tst ::
           (instrumentL body ++
             [Stmt.incrS ln u,
              Stmt.probeAssign ln u (Expr.evar u),
              Stmt.probeAssign ln u (Expr.evar u)]))]
  | .forLoop ln x init tst none body =>
      [Stmt.probeDeclare ln x init,
       Stmt.forLoop ln x init tst none
         (Stmt.probeTest ln (exprSrc tst) tst :: instrumentL body)]
  | .probeDeclare ln x e => [Stmt.probeDeclare ln x e]
  | .probeAssign ln x e => [Stmt.probeAssign ln x e]
  | .probeTest ln src e => [Stmt.probeTest ln src e]
  | .probeLoop ln k => [Stmt.probeLoop ln k]

/-- The rewrite of a statement list by the instrumentation pass. -/
def instrumentL : List Stmt → List Stmt
  | [] => []
  | s :: rest => instrumentS s ++ instrumentL rest

end

/-- The full pipeline for one request on a program of the fragment:
instrument, execute in the sandbox, select the run, reduce to frames;
none when execution does not finish within the fuel. -/
def runPipeline (fuel : Nat) (prog : List Stmt) (env : Env) : Option (List Frame) :=
  (exec fuel (instrumentL prog) env []).map
    (fun r => filterLogs (selectExecutionRun r.2))

/-- One stack entry of the frontend call-stack builder of the Visualizer
component: function name, locals, arguments and the return value set
when the entry is popped. -/
structure VFrame where
  func : String
  locals : List (String × Val)
  args : List (String × Val)
  returnValue : Option Val
deriving DecidableEq

/-- A fresh stack entry pushed for a call event. -/
def vframeNew (e : RawLog) : VFrame :=
  { func := e.fnOf, locals := [], args := e.argsOf, returnValue := none }

/-- Merge an event's locals into the innermost (last) stack entry; with
an empty stack the source's length guard leaves the stack unchanged. -/
def mergeTopLocals (s : List VFrame) (ls : List (String × Val)) : List VFrame :=
  match s.getLast? with
  | none => s
  | some fr => s.dropLast ++ [{ fr with locals := mergeAL fr.locals ls }]

/-- One iteration of the stack-building loop of the Visualizer.  The
source contains two consecutive independent if blocks matching call
events, each pushing a fresh entry, so a call event pushes twice; the
translation keeps both, being faithful to the file as written.  The
else-chain of the second block merges declare/assign/line locals into
the innermost entry and pops the innermost entry on a return event. -/
def buildStackStep (s : List VFrame) (e : RawLog) : List VFrame :=
  let s1 := if e.action = "call" then s ++ [vframeNew e] else s
  if e.action = "call" then s1 ++ [vframeNew e]
  else if e.action = "declare" ∨ e.action = "assign" then
    mergeTopLocals s1 (e.localsOf.getD [])
  else if e.action = "line" then
    mergeTopLocals s1 (e.localsOf.getD [])
  else if e.action = "return" then s1.dropLast
  else s1

/-- The call stack the Visualizer computes for a step index: a fold of
buildStackStep over the log prefix up to and including that step. -/
def buildStack (logs : List RawLog) (stepIdx : Nat) : List VFrame :=
  (logs.take (stepIdx + 1)).foldl buildStackStep []

/-- The number of call events in a raw event list. -/
def countCalls (l : List RawLog) : Nat :=
  (l.filter (fun e => e.action = "call")).length

/-- The number of return events in a raw event list. -/
def countReturns (l : List RawLog) : Nat :=
  (l.filter (fun e => e.action = "return")).length

/-- The call depth just before index i of a raw event list: calls seen
so far minus returns seen so far. -/
def callDepthAt (l : List RawLog) (i : Nat) : Int :=
  (countCalls (l.take i) : Int) - (countReturns (l.take i) : Int)

/-- Formalization of the claim's phrase top-level call event: a call
event encountered at call depth zero. -/
def isTopLevelCall (l : List RawLog) (i : Nat) : Bool :=
  (match l[i]? with
   | some e => e.action = "call"
   | none => false) && (callDepthAt l i = 0)

/-- The last top-level call index of a raw event list, the start the
claim prescribes for the selected run. -/
def lastTopLevelCallIdx (l : List RawLog) : Option Nat :=
  ((List.range l.length).filter (fun i => isTopLevelCall l i)).getLast?

/-- A heap of array-like objects for the clone helper of the sandbox of
server.js.  An address indexes the heap; object members are either
numbers or references to other objects.  Objects with named fields
behave identically under a one-level spread copy, so positional members
suffice. -/
inductive HVal where
  | num (n : Int)
  | ref (a : Nat)
deriving DecidableEq

/-- A heap object and a heap. -/
abbrev Heap := List (List HVal)

/-- The clone helper of the sandbox (server.js lines 71 to 75): an
array-like value is copied one level by a spread into a fresh object,
whose members are the very member values of the original, references
included; a primitive passes through unchanged. -/
def cloneHVal (h : Heap) (v : HVal) : HVal × Heap :=
  match v with
  | .ref a => (HVal.ref h.length, h ++ [(h[a]?).getD []])
  | .num _ => (v, h)

/-- Mutation of a nested member: write value v into slot i of the
object at address a. -/
def writeAt (h : Heap) (a i : Nat) (v : HVal) : Heap :=
  h.set a (((h[a]?).getD []).set i v)

/-- The tree of values read by dereferencing a heap value to a given
depth: what an observer of a recorded snapshot sees. -/
inductive RTree where
  | num (n : Int)
  | node (ts : List RTree)
  | cut

/-- Deep read of a heap value with fuel. -/
def deepRead : Nat → Heap → HVal → RTree
  | 0, _, _ => RTree.cut
  | _ + 1, _, .num n => RTree.num n
  | f + 1, h, .ref a => RTree.node (((h[a]?).getD []).map (fun w => deepRead f h w))

/-- Whether a heap member is a primitive number. -/
def HVal.isNum : HVal → Bool
  | .num _ => true
  | .ref _ => false

/-- Raw event list of a snippet whose top level calls the same function
twice in sequence, where that function calls a helper: two runs, each a
top-level call with one nested call. -/
def exTwoRuns : List RawLog :=
  [RawLog.call 1 "f" [("a", Val.int 1)],
   RawLog.call 2 "g" [],
   RawLog.ret 2 (Val.int 0),
   RawLog.ret 1 (Val.int 0),
   RawLog.call 1 "f" [("a", Val.int 2)],
   RawLog.call 2 "g" [],
   RawLog.ret 2 (Val.int 0),
   RawLog.ret 1 (Val.int 0)]

/-- Raw event list of one call followed by its matching return. -/
def exCallRet : List RawLog :=
  [RawLog.call 1 "f" [], RawLog.ret 1 (Val.int 5)]

/-- The counterexample program for the instrumentation claim: a single
declaration whose initializer is an effectful user call. -/
def c4prog : List Stmt := [Stmt.letDecl 1 "x" Expr.callIncr]

/-- Scenario B of the specification: let x = 1 followed by a counted
for loop accumulating x = x + i over i from 0 to 2. -/
def scenarioB : List Stmt :=
  [Stmt.letDecl 1 "x" (Expr.num 1),
   Stmt.forLoop 2 "i" (Expr.num 0) (Expr.lt (Expr.evar "i") (Expr.num 3))
     (some "i")
     [Stmt.assignS 2 "x" (Expr.add (Expr.evar "x") (Expr.evar "i"))]]

/-- The frames the pipeline produces for Scenario B within the given
fuel. -/
def scenarioBOut (fuel : Nat) : Option (List Frame) := runPipeline fuel scenarioB []

/-- Scenario E of the specification: an infinite while true loop with an
empty body. -/
def infiniteLoop : List Stmt := [Stmt.whileS 1 (Expr.boolLit true) []]

/-- The proposition that the service never finishes answering the
infinite loop snippet: for every step budget, execution of the
instrumented program is still unfinished, so no frame list, of any kind,
is ever produced. -/
def loopNeverResponds : Prop :=
  ∀ fuel : Nat, runPipeline fuel infiniteLoop [] = none

/-- Syntactically effect-free expressions of the fragment. -/
def pureExpr : Expr → Bool
  | .num _ => true
  | .boolLit _ => true
  | .evar _ => true
  | .add a b => pureExpr a && pureExpr b
  | .lt a b => pureExpr a && pureExpr b
  | .callIncr => false

/-- Straight-line user statements whose expressions are effect-free. -/
def plainStmt : Stmt → Bool
  | .letDecl _ _ e => pureExpr e
  | .assignS _ _ e => pureExpr e
  | .incrS _ _ => true
  | _ => false

theorem setKey_self (l : List (String × Val)) (x : String) (v : Val)
    (h : lookupKey l x = some v) : setKey l x v = l := by
  induction l with
  | nil => simp [lookupKey] at h
  | cons p t ih =>
    by_cases hx : p.1 = x
    · simp only [lookupKey, if_pos hx] at h
      cases p
      simp_all [setKey]
    · cases p
      simp only [lookupKey, if_neg hx] at h
      simp only [setKey, if_neg hx]
      simp_all

/-- C5.  Error handling: a crash of the submitted snippet is answered by
the single fault frame carrying the message, the events accumulated
before the failure do not influence the response, and the handler is a
total function, so no user failure escapes it. -/
theorem c5_error_single_frame :
    ∀ (msg : String) (dropped dropped2 : List RawLog),
      handleRun (ExecOutcome.crashed msg dropped) = [Frame.fault msg] ∧
      (handleRun (ExecOutcome.crashed msg dropped)).length = 1 ∧
      handleRun (ExecOutcome.crashed msg dropped) =
        handleRun (ExecOutcome.crashed msg dropped2) := by
  intro msg d d2
  exact ⟨rfl, rfl, rfl⟩

/-- C3.  Evaluation of the Visualizer stack builder at the failing
input: a single call followed by its matching return.  The claim
requires zero open frames (one call minus one matched return), but the
duplicated call branch of the source pushes two entries per call event
while a return pops one, leaving one open frame. -/
theorem c3_stack_invariant_violated :
    (buildStack exCallRet 1).length = 1 ∧
    countCalls exCallRet = 1 ∧ countReturns exCallRet = 1 := by
  decide

/-- C1, counterexample.  On a raw list with two sequential top-level
calls to f, each containing a nested call to g, the last top-level call
sits at index 4, but the selector returns the suffix from index 5, the
nested call inside the second run, which is not the suffix the claim
prescribes. -/
theorem c1_counterexample :
    lastTopLevelCallIdx exTwoRuns = some 4 ∧
    selectExecutionRun exTwoRuns = exTwoRuns.drop 5 ∧
    selectExecutionRun exTwoRuns ≠ exTwoRuns.drop 4 := by
  decide

/-- C4, counterexample.  For the declaration let x = incr() of an
effectful call, the original program leaves c = 1, but the instrumented
program evaluates the initializer a second time inside the declare
probe, leaving c = 2 (and records 2 as the value of x although x holds
1), so instrumentation changes the observable final state. -/
theorem c4_counterexample :
    exec 5 c4prog [("c", Val.int 0)] []
      = some ([("c", Val.int 1), ("x", Val.int 1)], []) ∧
    exec 5 (instrumentL c4prog) [("c", Val.int 0)] []
      = some ([("c", Val.int 2), ("x", Val.int 1)],
          [RawLog.declare 1 [("x", Val.int 2)]]) ∧
    ([("c", Val.int 1), ("x", Val.int 1)] : Env)
      ≠ [("c", Val.int 2), ("x", Val.int 1)] := by
  decide

/-- C9.  Evaluation of the full pipeline on the Scenario B snippet.
The emitted trace contains two frames recording an assignment to x,
with values 3 and 6 (the probes re-evaluate x + i after the assignment
already ran, and the first assign frame is suppressed as a duplicate of
the declare state), the three test events produce no frames of their
own, the single declare of i appears once, and the final frame carries
x = 6 while the program itself finishes with x = 4: the claimed three
assign frames with values 1, 2, 4 and final state x = 4 do not match
the code. -/
theorem c9_scenarioB_trace :
    (scenarioBOut 200).map (fun fs => fs.map Frame.actionOf)
      = some ["declare", "declare", "assign (after test)", "assign (after test)",
              "assign", "assign (after test)", "assign"] ∧
    (scenarioBOut 200).map (fun fs => fs.map (fun f => lookupKey f.localsOf "x"))
      = some [some (Val.int 1), some (Val.int 1), some (Val.int 1),
              some (Val.int 3), some (Val.int 3), some (Val.int 6), some (Val.int 6)] ∧
    (scenarioBOut 200).map (fun fs => (fs.getLast?).map Frame.localsOf)
      = some (some [("x", Val.int 6), ("i", Val.int 3)]) ∧
    (exec 200 scenarioB [] []).map (fun r => lookupKey r.1 "x")
      = some (some (Val.int 4)) := by
  decide

/-- C7, counterexample.  Clone the two-level array at address 1 (whose
single member references the inner array at address 0).  Reading the
snapshot gives the nested value 1; after mutating the inner member of
the original, reading the same snapshot gives 2: the one-level copy
shares nested members with the original, so the recorded snapshot is
not independent of later mutation. -/
theorem c7_counterexample :
    deepRead 5 (cloneHVal [[HVal.num 1], [HVal.ref 0]] (HVal.ref 1)).2
        (cloneHVal [[HVal.num 1], [HVal.ref 0]] (HVal.ref 1)).1
      = RTree.node [RTree.node [RTree.num 1]] ∧
    deepRead 5
        (writeAt (cloneHVal [[HVal.num 1], [HVal.ref 0]] (HVal.ref 1)).2 0 0 (HVal.num 2))
        (cloneHVal [[HVal.num 1], [HVal.ref 0]] (HVal.ref 1)).1
      = RTree.node [RTree.node [RTree.num 2]] ∧
    RTree.node [RTree.node [RTree.num 2]] ≠ RTree.node [RTree.node [RTree.num 1]] := by
  refine ⟨rfl, rfl, by simp⟩

theorem whileTrue_stuck (f : Nat) :
    (∀ (rest : List Stmt) (env : Env) (logs : List RawLog),
      exec f (Stmt.whileS 1 (Expr.boolLit true) [Stmt.probeLoop 1 "while"] :: rest)
        env logs = none) ∧
    (∀ (rest : List Stmt) (env : Env) (logs : List RawLog),
      exec f (Stmt.probeLoop 1 "while" ::
          Stmt.whileS 1 (Expr.boolLit true) [Stmt.probeLoop 1 "while"] :: rest)
        env logs = none) := by
  induction f with
  | zero => exact ⟨fun _ _ _ => rfl, fun _ _ _ => rfl⟩
  | succ f ih =>
    constructor
    · intro rest env logs
      show exec f (Stmt.probeLoop 1 "while" ::
        Stmt.whileS 1 (Expr.boolLit true) [Stmt.probeLoop 1 "while"] :: rest) env logs = none
      exact ih.2 rest env logs
    · intro rest env logs
      show exec f (Stmt.whileS 1 (Expr.boolLit true) [Stmt.probeLoop 1 "while"] :: rest)
        env (logs ++ [RawLog.loopK 1 "while"]) = none
      exact ih.1 rest env (logs ++ [RawLog.loopK 1 "while"])

/-- C8, counterexample.  The sandbox call of the source passes no
timeout option, so nothing bounds execution: for every step budget, the
instrumented infinite loop is still running, no frame list of any kind
is produced, and in particular no distinguished timeout frame is ever
surfaced; the request hangs. -/
theorem c8_counterexample : loopNeverResponds := by
  intro fuel
  have hinstr : instrumentL infiniteLoop
      = [Stmt.whileS 1 (Expr.boolLit true) [Stmt.probeLoop 1 "while"]] := rfl
  show (exec fuel (instrumentL infiniteLoop) [] []).map
      (fun r => filterLogs (selectExecutionRun r.2)) = none
  rw [hinstr, (whileTrue_stuck fuel).1 [] [] []]
  rfl

/-- C8, amended.  No step or wall-clock budget is enforced by the code:
execution of the instrumented infinite while-true loop never finishes
within any fuel, so the service never aborts it and never answers. -/
theorem c8_no_budget : ∀ fuel : Nat,
    exec fuel (instrumentL infiniteLoop) [] [] = none := by
  intro fuel
  have hinstr : instrumentL infiniteLoop
      = [Stmt.whileS 1 (Expr.boolLit true) [Stmt.probeLoop 1 "while"]] := rfl
  rw [hinstr]
  exact (whileTrue_stuck fuel).1 [] [] []

/-- C2.  Frame emission rule of the reducer.  Part one: for every
reducer state and every non-test event, a frame is emitted exactly when
the event kind is call, return or stdout, or the serialization of the
absorbed state differs from the serialization recorded at the
previously emitted frame.  Part two: an assign event re-binding a name
to the value it already holds, arriving while the current state is the
one recorded at the last emitted frame, produces no frame. -/
theorem c2_frame_emission_rule :
    (∀ (st : RState) (lg : RawLog), lg.action ≠ "test" →
      (((reduceStep st lg).2).isSome = true ↔
        (isSignificant lg = true ∨
          st.lastPushed ≠ some (serializeState (absorb st.cur lg))))) ∧
    (∀ (st : RState) (ln : Int) (x : String) (v : Val),
      st.lastPushed = some (serializeState st.cur) →
      lookupKey st.cur x = some v →
      (reduceStep st (RawLog.assign ln [(x, v)])).2 = none) := by
  constructor
  · intro st lg h
    by_cases hc : (isSignificant lg = true ∨
        st.lastPushed ≠ some (serializeState (absorb st.cur lg)))
    · simp only [reduceStep, if_neg h, if_pos hc]
      cases st.pending <;> simp [hc]
    · simp only [reduceStep, if_neg h, if_neg hc]
      simp [hc]
  · intro st ln x v hlp hlook
    have habs : absorb st.cur (RawLog.assign ln [(x, v)]) = st.cur := by
      simp only [absorb, RawLog.action, RawLog.localsOf, mergeAL, List.foldl]
      exact setKey_self st.cur x v hlook
    have hne : (RawLog.assign ln [(x, v)]).action ≠ "test" := by
      simp [RawLog.action]
    have hcond : ¬ (isSignificant (RawLog.assign ln [(x, v)]) = true ∨
        st.lastPushed ≠ some (serializeState (absorb st.cur (RawLog.assign ln [(x, v)])))) := by
      rw [habs, hlp]
      simp [isSignificant, RawLog.action]
    simp only [reduceStep, if_neg hne, if_neg hcond]

/-- C6.  Pending-context rule of the reducer.  A test event emits no
frame and only sets the pending context to the formatted combination of
the condition text and its result; while a context is pending, the next
emitted frame carries it, with the action suffixed by the after-test
marker, and the pending slot is cleared by that emission; a step that
emits no frame leaves the pending context in place for the next one. -/
theorem c6_pending_context :
    (∀ (st : RState) (ln : Int) (ex : String) (r : Val),
      reduceStep st (RawLog.test ln ex r) =
        ({ st with pending := some (testContextStr ex r) }, none)) ∧
    (∀ (st : RState) (lg : RawLog) (st' : RState) (fr : Frame) (c : String),
      st.pending = some c → lg.action ≠ "test" →
      reduceStep st lg = (st', some fr) →
      fr.actionOf = lg.action ++ " (after test)" ∧ fr.contextOf = some c ∧
        st'.pending = none) ∧
    (∀ (st : RState) (lg : RawLog) (st' : RState) (c : String),
      st.pending = some c → lg.action ≠ "test" →
      reduceStep st lg = (st', none) → st'.pending = some c) := by
  refine ⟨?_, ?_, ?_⟩
  · intro st ln ex r
    rfl
  · intro st lg st' fr c hp hne hred
    by_cases hc : (isSignificant lg = true ∨
        st.lastPushed ≠ some (serializeState (absorb st.cur lg)))
    · simp only [reduceStep, if_neg hne, if_pos hc, hp] at hred
      cases hred
      exact ⟨rfl, rfl, rfl⟩
    · simp only [reduceStep, if_neg hne, if_neg hc] at hred
      cases hred
  · intro st lg st' c hp hne hred
    by_cases hc : (isSignificant lg = true ∨
        st.lastPushed ≠ some (serializeState (absorb st.cur lg)))
    · simp only [reduceStep, if_neg hne, if_pos hc, hp] at hred
      cases hred
    · simp only [reduceStep, if_neg hne, if_neg hc] at hred
      cases hred
      exact hp

theorem mem_callIndicesAux (t : List RawLog) : ∀ (k j : Nat),
    j ∈ callIndicesAux k t ↔
      ∃ m e, t[m]? = some e ∧ e.action = "call" ∧ j = k + m := by
  induction t with
  | nil =>
    intro k j
    simp [callIndicesAux]
  | cons e t ih =>
    intro k j
    by_cases hc : e.action = "call"
    · simp only [callIndicesAux, if_pos hc, List.mem_cons, ih]
      constructor
      · rintro (rfl | ⟨m, e', hm, ha, rfl⟩)
        · exact ⟨0, e, by simp, hc, by omega⟩
        · exact ⟨m + 1, e', by simpa using hm, ha, by omega⟩
      · rintro ⟨m, e', hm, ha, rfl⟩
        cases m with
        | zero => left; omega
        | succ m => right; exact ⟨m, e', by simpa using hm, ha, by omega⟩
    · simp only [callIndicesAux, if_neg hc, ih]
      constructor
      · rintro ⟨m, e', hm, ha, rfl⟩
        exact ⟨m + 1, e', by simpa using hm, ha, by omega⟩
      · rintro ⟨m, e', hm, ha, rfl⟩
        cases m with
        | zero =>
          simp only [List.getElem?_cons_zero, Option.some.injEq] at hm
          exact absurd (hm ▸ ha) hc
        | succ m => exact ⟨m, e', by simpa using hm, ha, by omega⟩

theorem lb_callIndicesAux (t : List RawLog) (k j : Nat)
    (h : j ∈ callIndicesAux k t) : k ≤ j := by
  obtain ⟨m, e, _, _, rfl⟩ := (mem_callIndicesAux t k j).1 h
  omega

theorem max_callIndicesAux (t : List RawLog) : ∀ (k i : Nat),
    (callIndicesAux k t).getLast? = some i →
    ∀ j, j ∈ callIndicesAux k t → j ≤ i := by
  induction t with
  | nil =>
    intro k i h
    simp [callIndicesAux] at h
  | cons e t ih =>
    intro k i h j hj
    by_cases hc : e.action = "call"
    · simp only [callIndicesAux, if_pos hc] at h hj
      rcases List.mem_cons.1 hj with hjk | hj'
      · cases haux : callIndicesAux (k + 1) t with
        | nil =>
          rw [haux] at h
          simp only [List.getLast?_singleton, Option.some.injEq] at h
          omega
        | cons a as =>
          rw [haux] at h
          have h' : (a :: as).getLast? = some i := h
          have hmem : i ∈ a :: as := List.mem_of_mem_getLast? h'
          have : k + 1 ≤ i := lb_callIndicesAux t (k + 1) i (haux ▸ hmem)
          omega
      · cases haux : callIndicesAux (k + 1) t with
        | nil => rw [haux] at hj'; simp at hj'
        | cons a as =>
          rw [haux] at h
          exact ih (k + 1) i (by rw [haux]; exact h) j hj'
    · simp only [callIndicesAux, if_neg hc] at h hj
      exact ih (k + 1) i h j hj

/-- C1, amended.  Characterization of the run selector: with no call
events it returns the entire raw list; otherwise it returns the
contiguous suffix beginning at the last call event of the list,
regardless of the nesting depth of that call: the returned index holds
a call event and no later index does. -/
theorem c1_run_selector (l : List RawLog) :
    (callIndices l = [] → selectExecutionRun l = l) ∧
    (∀ i, (callIndices l).getLast? = some i →
      selectExecutionRun l = l.drop i ∧
      (∃ e, l[i]? = some e ∧ e.action = "call") ∧
      (∀ j e, i < j → l[j]? = some e → e.action ≠ "call")) := by
  constructor
  · intro h
    unfold selectExecutionRun
    rw [h]
    rfl
  · intro i hi
    refine ⟨?_, ?_, ?_⟩
    · unfold selectExecutionRun
      rw [hi]
    · have hmem : i ∈ callIndices l := List.mem_of_mem_getLast? hi
      obtain ⟨m, e, hm, ha, hkm⟩ := (mem_callIndicesAux l 0 i).1 hmem
      exact ⟨e, by rwa [show m = i by omega] at hm, ha⟩
    · intro j e hij hje hca
      have hjmem : j ∈ callIndices l :=
        (mem_callIndicesAux l 0 j).2 ⟨j, e, hje, hca, by omega⟩
      have := max_callIndicesAux l 0 i hi j hjmem
      omega

/-- Witness for the run selector characterization, at the nested-calls
raw list and at the empty list. -/
theorem c1_run_selector_witness :
    selectExecutionRun exTwoRuns = exTwoRuns.drop 5 ∧
    selectExecutionRun ([] : List RawLog) = [] := by
  constructor
  · exact ((c1_run_selector exTwoRuns).2 5 (by decide)).1
  · exact (c1_run_selector []).1 (by decide)

theorem evalPure_env (e : Expr) (he : pureExpr e = true) (env : Env) :
    (evalExpr e env).2 = env := by
  induction e generalizing env with
  | num n => rfl
  | boolLit b => rfl
  | evar x => rfl
  | add a b iha ihb =>
    simp only [pureExpr, Bool.and_eq_true] at he
    simp only [evalExpr]
    rw [iha he.1, ihb he.2]
  | lt a b iha ihb =>
    simp only [pureExpr, Bool.and_eq_true] at he
    simp only [evalExpr]
    rw [iha he.1, ihb he.2]
  | callIncr => simp [pureExpr] at he

theorem plain_exec_agree (p : List Stmt) (hall : p.all plainStmt = true) :
    ∀ (env : Env) (logs1 logs2 : List RawLog),
    ∃ (envF : Env) (lf : List RawLog),
      exec (p.length + 1) p env logs1 = some (envF, logs1) ∧
      exec ((instrumentL p).length + 1) (instrumentL p) env logs2 = some (envF, lf) := by
  induction p with
  | nil =>
    intro env logs1 logs2
    exact ⟨env, logs2, rfl, rfl⟩
  | cons s t ih =>
    rw [List.all_cons, Bool.and_eq_true] at hall
    obtain ⟨hs, ht⟩ := hall
    intro env logs1 logs2
    cases s with
    | letDecl ln x e =>
      have hp : pureExpr e = true := hs
      obtain ⟨envF, lf, h1, h2⟩ := ih ht (setKey env x (evalExpr e env).1) logs1
        (logs2 ++ [RawLog.declare ln
          [(x, clonePrim (evalExpr e (setKey env x (evalExpr e env).1)).1)]])
      refine ⟨envF, lf, ?_, ?_⟩
      · show exec (t.length + 1) t (setKey (evalExpr e env).2 x (evalExpr e env).1) logs1
          = some (envF, logs1)
        rw [evalPure_env e hp env]
        exact h1
      · show exec ((Stmt.letDecl ln x e :: Stmt.probeDeclare ln x e :: instrumentL t).length + 1)
          (Stmt.letDecl ln x e :: Stmt.probeDeclare ln x e :: instrumentL t) env logs2
          = some (envF, lf)
        show exec ((instrumentL t).length + 1 + 1)
          (Stmt.probeDeclare ln x e :: instrumentL t)
          (setKey (evalExpr e env).2 x (evalExpr e env).1) logs2 = some (envF, lf)
        rw [evalPure_env e hp env]
        show exec ((instrumentL t).length + 1) (instrumentL t)
          (evalExpr e (setKey env x (evalExpr e env).1)).2
          (logs2 ++ [RawLog.declare ln
            [(x, clonePrim (evalExpr e (setKey env x (evalExpr e env).1)).1)]])
          = some (envF, lf)
        rw [evalPure_env e hp (setKey env x (evalExpr e env).1)]
        exact h2
    | assignS ln x e =>
      have hp : pureExpr e = true := hs
      obtain ⟨envF, lf, h1, h2⟩ := ih ht (setKey env x (evalExpr e env).1) logs1
        (logs2 ++ [RawLog.assign ln
          [(x, clonePrim (evalExpr e (setKey env x (evalExpr e env).1)).1)]])
      refine ⟨envF, lf, ?_, ?_⟩
      · show exec (t.length + 1) t (setKey (evalExpr e env).2 x (evalExpr e env).1) logs1
          = some (envF, logs1)
        rw [evalPure_env e hp env]
        exact h1
      · show exec ((instrumentL t).length + 1 + 1)
          (Stmt.probeAssign ln x e :: instrumentL t)
          (setKey (evalExpr e env).2 x (evalExpr e env).1) logs2 = some (envF, lf)
        rw [evalPure_env e hp env]
        show exec ((instrumentL t).length + 1) (instrumentL t)
          (evalExpr e (setKey env x (evalExpr e env).1)).2
          (logs2 ++ [RawLog.assign ln
            [(x, clonePrim (evalExpr e (setKey env x (evalExpr e env).1)).1)]])
          = some (envF, lf)
        rw [evalPure_env e hp (setKey env x (evalExpr e env).1)]
        exact h2
    | incrS ln x =>
      obtain ⟨envF, lf, h1, h2⟩ := ih ht
        (setKey env x (jsAdd ((lookupKey env x).getD (Val.int 0)) (Val.int 1))) logs1
        (logs2 ++ [RawLog.assign ln
          [(x, clonePrim (evalExpr (Expr.evar x)
            (setKey env x (jsAdd ((lookupKey env x).getD (Val.int 0)) (Val.int 1)))).1)]])
      exact ⟨envF, lf, h1, h2⟩
    | forLoop ln x init tst upd body => simp [plainStmt] at hs
    | whileS ln c body => simp [plainStmt] at hs
    | probeDeclare ln x e => simp [plainStmt] at hs
    | probeAssign ln x e => simp [plainStmt] at hs
    | probeTest ln src e => simp [plainStmt] at hs
    | probeLoop ln k => simp [plainStmt] at hs

/-- C4, amended.  Instrumentation preserves the observable result for
straight-line programs whose declaration initializers and assignment
right-hand sides are effect-free: the instrumented program reaches
exactly the final environment of the original, the probes only
appending raw events.  The restriction is forced: the declare and
assign probes re-evaluate a copy of the initializer or right-hand side
after the statement, so an effectful expression executes twice. -/
theorem c4_pure_preservation (p : List Stmt) (env : Env)
    (hall : p.all plainStmt = true) :
    ∃ (envF : Env) (raws : List RawLog),
      exec (p.length + 1) p env [] = some (envF, []) ∧
      exec ((instrumentL p).length + 1) (instrumentL p) env [] = some (envF, raws) :=
  plain_exec_agree p hall env [] []

/-- Witness for the pure preservation theorem at a concrete one-line
program. -/
theorem c4_pure_preservation_witness :
    (exec ([Stmt.letDecl 1 "y" (Expr.num 7)].length + 1)
        [Stmt.letDecl 1 "y" (Expr.num 7)] [] []).map Prod.fst
      = (exec ((instrumentL [Stmt.letDecl 1 "y" (Expr.num 7)]).length + 1)
          (instrumentL [Stmt.letDecl 1 "y" (Expr.num 7)]) [] []).map Prod.fst := by
  obtain ⟨envF, raws, h1, h2⟩ :=
    c4_pure_preservation [Stmt.letDecl 1 "y" (Expr.num 7)] [] (by decide)
  rw [h1, h2]
  rfl

/-- C7, amended.  The clone helper produces a one-level copy: for a
flat array, one whose members are all primitives at clone time,
replacing the contents at the original address afterwards never changes
what the recorded snapshot reads, at any depth.  Nested members, by the
counterexample, are shared with the original and are not protected, and
cyclic structures receive no marker stand-in. -/
theorem c7_one_level_independence (h : Heap) (a : Nat) (ha : a < h.length)
    (hflat : ∀ v ∈ (h[a]?).getD [], v.isNum = true) (o : List HVal) (fuel : Nat) :
    deepRead fuel ((cloneHVal h (HVal.ref a)).2.set a o) (cloneHVal h (HVal.ref a)).1
      = deepRead fuel (cloneHVal h (HVal.ref a)).2 (cloneHVal h (HVal.ref a)).1 := by
  cases fuel with
  | zero => rfl
  | succ f =>
    have hobj : (h ++ [(h[a]?).getD []])[h.length]? = some ((h[a]?).getD []) :=
      List.getElem?_concat_length h ((h[a]?).getD [])
    have hne : a ≠ h.length := by omega
    have hobj2 : ((h ++ [(h[a]?).getD []]).set a o)[h.length]? =
        some ((h[a]?).getD []) := by
      rw [List.getElem?_set_ne hne, hobj]
    simp only [cloneHVal, deepRead, hobj, hobj2, Option.getD_some]
    congr 1
    apply List.map_eq_map_iff.mpr
    intro v hv
    have hn := hflat v hv
    cases v with
    | num n => cases f <;> rfl
    | ref b => simp [HVal.isNum] at hn

/-- Witness for the one-level independence theorem: a flat two-member
array, overwritten at its original address after the clone. -/
theorem c7_one_level_independence_witness :
    deepRead 3 ((cloneHVal [[HVal.num 1, HVal.num 2]] (HVal.ref 0)).2.set 0 [HVal.num 9])
        (cloneHVal [[HVal.num 1, HVal.num 2]] (HVal.ref 0)).1
      = deepRead 3 (cloneHVal [[HVal.num 1, HVal.num 2]] (HVal.ref 0)).2
          (cloneHVal [[HVal.num 1, HVal.num 2]] (HVal.ref 0)).1 :=
  c7_one_level_independence [[HVal.num 1, HVal.num 2]] 0 (by decide)
    (by decide) [HVal.num 9] 3

/-- Witness for the emission rule: with the current state already the
one recorded at the last emitted frame, a repeated assignment of x to
its current value produces no frame. -/
theorem c2_frame_emission_rule_witness :
    (reduceStep
      { cur := [("x", Val.int 1)],
        lastPushed := some (serializeState [("x", Val.int 1)]),
        pending := none }
      (RawLog.assign 1 [("x", Val.int 1)])).2 = none :=
  c2_frame_emission_rule.2
    { cur := [("x", Val.int 1)],
      lastPushed := some (serializeState [("x", Val.int 1)]),
      pending := none }
    1 "x" (Val.int 1) rfl (by decide)

/-- Witness for the pending-context rule: a call event arriving while a
context is pending is emitted with the after-test action suffix, carries
the context, and clears the pending slot. -/
theorem c6_pending_context_witness :
    Frame.actionOf (Frame.step "call (after test)" 1 [] (some "P") none none)
        = (RawLog.call 1 "f" []).action ++ " (after test)" ∧
    Frame.contextOf (Frame.step "call (after test)" 1 [] (some "P") none none)
        = some "P" ∧
    (RState.mk [] (some (serializeState [])) none).pending = none :=
  c6_pending_context.2.1
    (RState.mk [] none (some "P"))
    (RawLog.call 1 "f" [])
    (RState.mk [] (some (serializeState [])) none)
    (Frame.step "call (after test)" 1 [] (some "P") none none)
    "P" rfl (by decide) (by decide)
